import Mathlib

/-!
Verification of the jasper backport script (src/scripts/backport.js).

The script is shallowly embedded as a deterministic interpreter over an
`Oracle` describing the behavior of the external collaborators (the GitHub
API, the nodegit repository object, and the network).  A run produces an
`Outcome` together with the ordered list of observable `Event`s it performs
and the accumulated list of conflicted targets (`branchesWithConflicts`).

The promise chain of the script is sequential by construction (the source
builds it with reduce over then-chains), so the interpreter is a plain
sequential function with early-exit error propagation.
-/

namespace Jasper

/-! ## Character-level models of the two regular expressions -/

/-- ASCII single-quote character, which appears in CONFLICTS_REGEX. -/
def quoteChar : Char := Char.ofNat 39

/-- ASCII lowercasing of a single character.  This models the canonical
case-insensitive comparison performed by a JavaScript regex with the i flag
against an all-ASCII pattern: ASCII letters compare case-insensitively and
no non-ASCII character can match an ASCII pattern character. -/
def asciiLower (c : Char) : Char :=
  if 65 ≤ c.toNat ∧ c.toNat ≤ 90 then Char.ofNat (c.toNat + 32) else c

/-- Characters matched by an unescaped dot in a JavaScript regex without the
s flag: any character except the four line terminators. -/
def isDotChar (c : Char) : Bool :=
  c != Char.ofNat 10 && c != Char.ofNat 13 &&
    c != Char.ofNat 0x2028 && c != Char.ofNat 0x2029

/-- The literal part of CONFLICTS_REGEX before the dot-plus group:
the text applied patch to followed by a single quote. -/
def conflictsOpen : List Char := "applied patch to ".data ++ [quoteChar]

/-- The literal part of CONFLICTS_REGEX after the dot-plus group:
a single quote followed by the text with conflicts. -/
def conflictsClose : List Char := quoteChar :: " with conflicts".data

/-- After at least one dot-matched character, the closing literal of
CONFLICTS_REGEX must occur. -/
def conflictsMid : List Char → Bool
  | [] => false
  | c :: rest => isDotChar c && (conflictsClose.isPrefixOf rest || conflictsMid rest)

/-- Unanchored search for CONFLICTS_REGEX starting at every position. -/
def conflictsSearch : List Char → Bool
  | [] => false
  | c :: rest =>
    (conflictsOpen.isPrefixOf (c :: rest)
        && conflictsMid ((c :: rest).drop conflictsOpen.length))
      || conflictsSearch rest

/-- Model of CONFLICTS_REGEX.test from backport.js: case-insensitive
unanchored search for applied patch to quote dot-plus quote with conflicts. -/
def conflictsRegexTest (s : String) : Bool :=
  conflictsSearch (s.data.map asciiLower)

/-- Split a character list at every occurrence of the separator, mirroring
the segmentation performed by the slash-free character classes of
PR_URL_REGEX. -/
def splitChars (sep : Char) : List Char → List (List Char)
  | [] => [[]]
  | c :: rest =>
    let r := splitChars sep rest
    if c = sep then [] :: r
    else
      match r with
      | [] => [[c]]
      | g :: gs => (c :: g) :: gs

/-- Model of url.match(PR_URL_REGEX) from backport.js.  The regex is anchored
at both ends; the dot in github.com is an unescaped regex dot, so it matches
any single non-line-terminator character.  On success the result carries the
two captures: the owner/name capture and the digits of the PR number. -/
def prUrlMatch (url : String) : Option (String × String) :=
  let cs := url.data
  let pre := "https://github".data
  if pre.isPrefixOf cs then
    match cs.drop pre.length with
    | [] => none
    | c :: rest =>
      if isDotChar c && "com/".data.isPrefixOf rest then
        match splitChars (Char.ofNat 47) (rest.drop 4) with
        | [a, b, p, n] =>
          if (!a.isEmpty) && (!b.isEmpty) && (p == "pull".data)
              && (!n.isEmpty) && n.all Char.isDigit then
            some (String.mk a ++ "/" ++ String.mk b, String.mk n)
          else none
        | _ => none
      else none
  else none

/-- The literal URL pattern named by the claims, with a literal dot in
github.com: owner and repository segments nonempty and slash-free, the PR
number a nonempty digit string.  Spec-side definition, for comparison with
prUrlMatch. -/
def exactPRUrl (url : String) : Bool :=
  let pre := "https://github.com/".data
  pre.isPrefixOf url.data &&
    match splitChars (Char.ofNat 47) (url.data.drop pre.length) with
    | [a, b, p, n] =>
      (!a.isEmpty) && (!b.isEmpty) && (p == "pull".data)
        && (!n.isEmpty) && n.all Char.isDigit
    | _ => false

/-! ## Data model -/

/-- Name, email and date of a commit author or committer, as delivered by the
GitHub commits API. -/
structure PersonStamp where
  name : String
  email : String
  date : String
deriving DecidableEq, Repr

/-- One entry of the PR commit list: the fields of data.commit and data.sha
destructured by backport.js. -/
structure CommitData where
  sha : String
  message : String
  author : PersonStamp
  committer : PersonStamp
deriving DecidableEq, Repr

/-- The fields of the pull-request metadata used by backport.js:
info.base.ref, info.head.ref, info.merged, info.merged_by.login,
info.diff_url and info.base.repo.ssh_url. -/
structure PRInfo where
  baseRef : String
  headRef : String
  merged : Bool
  mergedByLogin : String
  diffUrl : String
  sshUrl : String
deriving DecidableEq, Repr

/-- Modelled from the spec: the fixed bot signature returned by getSignature
in src/src/git.js, a file not present under src/.  The spec only states that
a fixed signature is used for both author and committer, so the signature is
carried abstractly in the oracle. -/
structure Signature where
  name : String
  email : String
deriving DecidableEq, Repr

/-! ## Pure message and name construction -/

/-- One numbered block of the consolidated commit message: the five lines
built by backport.js joined with a newline, where num is the value of the
counter after its increment for this commit. -/
def commitBlock (num : Nat) (d : CommitData) : String :=
  String.intercalate "\n"
    [ "[Commit " ++ toString num ++ "]"
    , d.message ++ "\n"
    , "Original sha: " ++ d.sha
    , "Authored by " ++ d.author.name ++ " <" ++ d.author.email ++ "> on "
        ++ d.author.date
    , "Committed by " ++ d.committer.name ++ " <" ++ d.committer.email
        ++ "> on " ++ d.committer.date ]

/-- The list of blocks produced by the map over the commit list; num is the
value of the mutable counter before the current commit is processed. -/
def commitBlocks (num : Nat) : List CommitData → List String
  | [] => []
  | d :: rest => commitBlock (num + 1) d :: commitBlocks (num + 1) rest

/-- baseCommitMessage from backport.js: the numbered blocks joined with a
blank line. -/
def baseCommitMessage (commits : List CommitData) : String :=
  String.intercalate "\n\n" (commitBlocks 0 commits)

/-- backportBranchName from backport.js. -/
def backportBranchName (number target original : String) : String :=
  "jasper/backport/" ++ number ++ "-" ++ target ++ "-" ++ original

/-- The commit message built per target by backport.js, also used verbatim as
the body of the tracking issue. -/
def commitMessage (number target baseMsg : String) : String :=
  "Backport PR #" ++ number ++ " to " ++ target ++ "\n\n" ++ baseMsg

/-! ## Observable events and run results -/

/-- The arguments of repo.createCommit: the ref updated, author and
committer signatures, message, tree oid and parent commit list. -/
structure CommitRec where
  refName : String
  author : Signature
  committer : Signature
  message : String
  tree : String
  parents : List String
deriving DecidableEq, Repr

/-- The params object passed to createIssue. -/
structure IssueParams where
  title : String
  body : String
  assignee : String
  labels : List String
deriving DecidableEq, Repr

/-- The params object passed to createPullRequest: the number of the issue
just created, the head branch and the base branch. -/
structure PRParams where
  issue : Nat
  head : String
  base : String
deriving DecidableEq, Repr

/-- Observable actions of one run, in program order. -/
inductive Event where
  | getInfo
  | getCommits
  | diffFetch
  | tmpCreate
  | openRepo
  | fetchOrigin
  | createBranch (name : String) (tip : String)
  | checkout (name : String)
  | applyPatch (target : String)
  | stageAll (target : String)
  | commit (rec : CommitRec)
  | push (refspec : String)
  | createIssue (params : IssueParams)
  | createPR (params : PRParams)
  | cleanupTmp
  | send (message : String)
deriving DecidableEq, Repr

/-- The errors thrown inside the promise chain of backport.js. -/
inductive RunError where
  | invalidTarget
  | notMerged
  | applyFailed (target : String) (message : String)
  | pushFailed (branch : String)
deriving DecidableEq, Repr

/-- How a run ends.  A handledError is a promise rejection routed to the
final catch, which emits it on the robot error channel; syncThrow is the
synchronous TypeError raised by destructuring a null regex match, which
happens outside the promise chain and reaches no handler. -/
inductive Outcome where
  | success (message : String)
  | handledError (e : RunError)
  | syncThrow
deriving DecidableEq, Repr

/-- Behavior of the external collaborators, supplied as an environment:
given an oracle the run is a deterministic function of its inputs.
applyResult returns none when git apply exits cleanly and the error message
otherwise; pushOk tells whether remote.push succeeds for a refspec;
issueNumber is the number of the tracking issue the API creates for a
target. -/
structure Oracle where
  info : PRInfo
  commits : List CommitData
  signature : Signature
  originTip : String → String
  applyResult : String → Option String
  treeOf : String → String
  pushOk : String → Bool
  issueNumber : String → Nat

/-- Result of one run: the outcome, the chronological event list, and the
final contents of branchesWithConflicts. -/
structure RunResult where
  outcome : Outcome
  events : List Event
  conflicted : List String
deriving DecidableEq, Repr

/-! ## The interpreter -/

/-- Events of one target up to and including the git apply call:
createBranch at the tip of origin target, checkout, patch application. -/
def applySegment (o : Oracle) (number original target : String) : List Event :=
  let name := backportBranchName number target original
  [Event.createBranch name (o.originTip target),
   Event.checkout name,
   Event.applyPatch target]

/-- The arguments of the repo.createCommit call for a target: updates HEAD,
uses the signature as both author and committer, the tree written from the
staged index and the single parent repo.getHeadCommit, which is the tip the
branch was created at. -/
def commitRecFor (o : Oracle) (number baseMsg target : String) : CommitRec :=
  { refName := "HEAD"
  , author := o.signature
  , committer := o.signature
  , message := commitMessage number target baseMsg
  , tree := o.treeOf target
  , parents := [o.originTip target] }

/-- Events of one target from staging the working tree through commit
creation: index.addAll-write-writeTree, then repo.createCommit. -/
def commitSegment (o : Oracle) (number original baseMsg target : String) :
    List Event :=
  [Event.stageAll target, Event.commit (commitRecFor o number baseMsg target)]

/-- Full event block of one target that reaches the commit step. -/
def targetBlock (o : Oracle) (number original baseMsg target : String) :
    List Event :=
  applySegment o number original target
    ++ commitSegment o number original baseMsg target

/-- Sequential processing of the target list, mirroring the promise reduce
chain of backport.js: returns the events performed, the conflicted targets
in processing order, and the fatal apply error if one occurred.  A git apply
failure whose message matches CONFLICTS_REGEX records the target and
continues; any other apply failure stops the whole chain. -/
def processTargets (o : Oracle) (number original baseMsg : String) :
    List String → List Event × List String × Option (String × String)
  | [] => ([], [], none)
  | target :: rest =>
    match o.applyResult target with
    | none =>
      let r := processTargets o number original baseMsg rest
      (targetBlock o number original baseMsg target ++ r.1, r.2.1, r.2.2)
    | some msg =>
      if conflictsRegexTest msg then
        let r := processTargets o number original baseMsg rest
        (targetBlock o number original baseMsg target ++ r.1,
         target :: r.2.1, r.2.2)
      else
        (applySegment o number original target, [], some (target, msg))

/-- The refspec pushed for a branch: refs/heads/name on both sides. -/
def refspecOf (branch : String) : String :=
  "refs/heads/" ++ branch ++ ":" ++ "refs/heads/" ++ branch

/-- Sequential pushes over the derived branch names, mirroring the promise
reduce over refspecs; a failed push stops the chain and is fatal. -/
def pushPhase (o : Oracle) : List String → List Event × Option String
  | [] => ([], none)
  | b :: rest =>
    if o.pushOk (refspecOf b) then
      let r := pushPhase o rest
      (Event.push (refspecOf b) :: r.1, r.2)
    else
      ([Event.push (refspecOf b)], some b)

/-- Issue labels for a target: backport always, plus has conflicts when the
target was recorded in branchesWithConflicts. -/
def labelsFor (conflicted : List String) (target : String) : List String :=
  if conflicted.contains target then ["backport", "has conflicts"]
  else ["backport"]

/-- The params of the tracking issue created for a target. -/
def issueParamsFor (o : Oracle) (number baseMsg : String)
    (conflicted : List String) (target : String) : IssueParams :=
  { title := "[backport] PR #" ++ number ++ " to " ++ target
  , body := "Backport PR #" ++ number ++ " to " ++ target ++ "\n\n" ++ baseMsg
  , assignee := o.info.mergedByLogin
  , labels := labelsFor conflicted target }

/-- The params of the pull request created for a target: it references the
number of the issue just created, its head is the derived branch and its
base is the target branch. -/
def prParamsFor (o : Oracle) (number original target : String) : PRParams :=
  { issue := o.issueNumber target
  , head := backportBranchName number target original
  , base := target }

/-- Publishing for all targets: for each target, create the tracking issue
and then the pull request that references it. -/
def publishPhase (o : Oracle) (number original baseMsg : String)
    (conflicted : List String) (targets : List String) : List Event :=
  targets.flatMap fun target =>
    [Event.createIssue (issueParamsFor o number baseMsg conflicted target),
     Event.createPR (prParamsFor o number original target)]

/-- Events performed between validation and target processing: the two
metadata fetches have already run, then the diff download and its temporary
file, the repository open and the fetch of origin. -/
def initEvents : List Event :=
  [Event.getInfo, Event.getCommits, Event.diffFetch, Event.tmpCreate,
   Event.openRepo, Event.fetchOrigin]

/-- The final chat report of a successful run. -/
def sendMessage (number : String) (branches : List String) : String :=
  "Backported pull request #" ++ number ++ " to "
    ++ String.intercalate ", " branches

/-- The promise chain entered after the URL has been destructured: metadata
fetch, the two validation gates in source order, message composition, diff
staging, per-target backporting, sequential pushes, publishing, cleanup and
the final report. -/
def runAfterMatch (number : String) (branches : List String) (o : Oracle) :
    RunResult :=
  if branches.contains o.info.baseRef then
    { outcome := Outcome.handledError RunError.invalidTarget
    , events := [Event.getInfo, Event.getCommits]
    , conflicted := [] }
  else if !o.info.merged then
    { outcome := Outcome.handledError RunError.notMerged
    , events := [Event.getInfo, Event.getCommits]
    , conflicted := [] }
  else
    let original := o.info.headRef
    let baseMsg := baseCommitMessage o.commits
    let pt := processTargets o number original baseMsg branches
    match pt.2.2 with
    | some fe =>
      { outcome := Outcome.handledError (RunError.applyFailed fe.1 fe.2)
      , events := initEvents ++ pt.1
      , conflicted := pt.2.1 }
    | none =>
      let names := branches.map fun t => backportBranchName number t original
      let pp := pushPhase o names
      match pp.2 with
      | some b =>
        { outcome := Outcome.handledError (RunError.pushFailed b)
        , events := initEvents ++ pt.1 ++ pp.1
        , conflicted := pt.2.1 }
      | none =>
        { outcome := Outcome.success (sendMessage number branches)
        , events := initEvents ++ pt.1 ++ pp.1
            ++ publishPhase o number original baseMsg pt.2.1 branches
            ++ [Event.cleanupTmp, Event.send (sendMessage number branches)]
        , conflicted := pt.2.1 }

/-- The whole handler body: destructure the PR_URL_REGEX match, which throws
a synchronous TypeError outside the promise chain when the match is null,
then run the chain on the captured number. -/
def runBackport (url : String) (branches : List String) (o : Oracle) :
    RunResult :=
  match prUrlMatch url with
  | none => { outcome := Outcome.syncThrow, events := [], conflicted := [] }
  | some pn => runAfterMatch pn.2 branches o

/-! ## Observation helpers over event lists -/

/-- Names of the branches created, in order. -/
def branchNamesOf (evs : List Event) : List String :=
  evs.filterMap fun e =>
    match e with
    | Event.createBranch name _ => some name
    | _ => none

/-- Refspecs pushed, in order. -/
def pushRefsOf (evs : List Event) : List String :=
  evs.filterMap fun e =>
    match e with
    | Event.push r => some r
    | _ => none

/-- Commits created, in order. -/
def commitsOf (evs : List Event) : List CommitRec :=
  evs.filterMap fun e =>
    match e with
    | Event.commit r => some r
    | _ => none

/-- Tracking issues created, in order. -/
def issuesOf (evs : List Event) : List IssueParams :=
  evs.filterMap fun e =>
    match e with
    | Event.createIssue p => some p
    | _ => none

/-- Pull requests created, in order. -/
def prsOf (evs : List Event) : List PRParams :=
  evs.filterMap fun e =>
    match e with
    | Event.createPR p => some p
    | _ => none

/-- The git apply result for the target is clean, or a failure whose message
is a recognizable conflict signal. -/
def nonFatalApply (o : Oracle) (target : String) : Prop :=
  ∀ msg, o.applyResult target = some msg → conflictsRegexTest msg = true

/-- The targets recorded in branchesWithConflicts when no fatal apply error
occurs: exactly those whose apply reported an error. -/
def conflictedOf (o : Oracle) (branches : List String) : List String :=
  branches.filter fun t => (o.applyResult t).isSome

/-! ## Concrete sample inputs used by witnesses and counterexamples -/

/-- The scenario of section 8 of the spec: PR 42, base main, head feature-x. -/
def sampleUrl : String := "https://github.com/elastic/kibana/pull/42"

/-- One sample commit of the scenario. -/
def sampleCommit : CommitData :=
  { sha := "abc123", message := "Fix bug"
  , author := { name := "A", email := "a@x.com", date := "2020-01-01" }
  , committer := { name := "A", email := "a@x.com", date := "2020-01-01" } }

/-- Collaborator behavior for a fully clean run. -/
def sampleOracle : Oracle :=
  { info :=
      { baseRef := "main", headRef := "feature-x", merged := true
      , mergedByLogin := "alice", diffUrl := "d", sshUrl := "s" }
  , commits := [sampleCommit]
  , signature := { name := "Jasper Bot", email := "jasper@example.com" }
  , originTip := fun _ => "tip"
  , applyResult := fun _ => none
  , treeOf := fun _ => "tree"
  , pushOk := fun _ => true
  , issueNumber := fun _ => 7 }

/-- A git apply error message that CONFLICTS_REGEX recognizes. -/
def conflictMsg : String :=
  "error: Applied patch to " ++ quoteChar.toString ++ "a.txt"
    ++ quoteChar.toString ++ " with conflicts."

/-- A git apply error message that CONFLICTS_REGEX does not recognize. -/
def hardErrMsg : String := "error: corrupt patch at line 3"

/-- Collaborator behavior where the patch conflicts on release-1.0 and
applies cleanly elsewhere. -/
def conflictOracle : Oracle :=
  { sampleOracle with
      applyResult := fun t =>
        if t = "release-1.0" then some conflictMsg else none }

/-- Collaborator behavior where git apply fails hard on every target. -/
def fatalApplyOracle : Oracle :=
  { sampleOracle with applyResult := fun _ => some hardErrMsg }

/-- Collaborator behavior where every push fails. -/
def pushFailOracle : Oracle :=
  { sampleOracle with pushOk := fun _ => false }

/-! ## Event classification -/

/-- Repository-mutating events: the ones emitted while a target is being
processed. -/
def isRepoEvent : Event → Bool
  | Event.createBranch _ _ => true
  | Event.checkout _ => true
  | Event.applyPatch _ => true
  | Event.stageAll _ => true
  | Event.commit _ => true
  | _ => false

/-- Publishing events: issue and pull-request creation. -/
def isPublishEvent : Event → Bool
  | Event.createIssue _ => true
  | Event.createPR _ => true
  | _ => false

theorem mem_applySegment_repo (o : Oracle) (number original target : String) :
    ∀ e ∈ applySegment o number original target, isRepoEvent e = true := by
  intro e he
  simp only [applySegment, List.mem_cons, List.mem_singleton,
    List.not_mem_nil, or_false] at he
  rcases he with rfl | rfl | rfl <;> rfl

theorem mem_targetBlock_repo (o : Oracle) (number original baseMsg target : String) :
    ∀ e ∈ targetBlock o number original baseMsg target, isRepoEvent e = true := by
  intro e he
  rw [targetBlock, List.mem_append] at he
  rcases he with h | h
  · exact mem_applySegment_repo o number original target e h
  · simp only [commitSegment, List.mem_cons, List.mem_singleton,
      List.not_mem_nil, or_false] at h
    rcases h with rfl | rfl <;> rfl

theorem mem_flatMap_targetBlock_repo (o : Oracle) (number original baseMsg : String)
    (l : List String) :
    ∀ e ∈ l.flatMap (targetBlock o number original baseMsg),
      isRepoEvent e = true := by
  intro e he
  rw [List.mem_flatMap] at he
  rcases he with ⟨t, _, h⟩
  exact mem_targetBlock_repo o number original baseMsg t e h

theorem mem_processTargets_repo (o : Oracle) (number original baseMsg : String)
    (branches : List String) :
    ∀ e ∈ (processTargets o number original baseMsg branches).1,
      isRepoEvent e = true := by
  induction branches with
  | nil => intro e he; simp [processTargets] at he
  | cons t rest ih =>
    intro e he
    rcases happ : o.applyResult t with _ | msg
    · simp only [processTargets, happ] at he
      rw [List.mem_append] at he
      rcases he with h | h
      · exact mem_targetBlock_repo o number original baseMsg t e h
      · exact ih e h
    · simp only [processTargets, happ] at he
      by_cases hc : conflictsRegexTest msg = true
      · rw [if_pos hc, List.mem_append] at he
        rcases he with h | h
        · exact mem_targetBlock_repo o number original baseMsg t e h
        · exact ih e h
      · rw [if_neg hc] at he
        exact mem_applySegment_repo o number original t e he

theorem mem_pushPhase_push (o : Oracle) (names : List String) :
    ∀ e ∈ (pushPhase o names).1, ∃ r, e = Event.push r := by
  induction names with
  | nil => intro e he; simp [pushPhase] at he
  | cons b rest ih =>
    intro e he
    rcases hok : o.pushOk (refspecOf b) with _ | _
    · rw [pushPhase, hok] at he
      simp only [Bool.false_eq_true, if_false, List.mem_singleton] at he
      exact ⟨refspecOf b, he⟩
    · rw [pushPhase, hok] at he
      simp only [if_true, List.mem_cons] at he
      rcases he with rfl | h
      · exact ⟨refspecOf b, rfl⟩
      · exact ih e h

theorem mem_publishPhase_publish (o : Oracle) (number original baseMsg : String)
    (conflicted targets : List String) :
    ∀ e ∈ publishPhase o number original baseMsg conflicted targets,
      isPublishEvent e = true := by
  intro e he
  rw [publishPhase, List.mem_flatMap] at he
  rcases he with ⟨t, _, h⟩
  simp only [List.mem_cons, List.mem_singleton, List.not_mem_nil, or_false] at h
  rcases h with rfl | rfl <;> rfl

/-! ## Observation values over classified event lists -/

theorem pushRefsOf_nil_of_repo (l : List Event)
    (h : ∀ e ∈ l, isRepoEvent e = true) : pushRefsOf l = [] := by
  rw [pushRefsOf, List.filterMap_eq_nil_iff]
  intro e he
  have := h e he
  cases e <;> simp_all [isRepoEvent]

theorem issuesOf_nil_of_repo (l : List Event)
    (h : ∀ e ∈ l, isRepoEvent e = true) : issuesOf l = [] := by
  rw [issuesOf, List.filterMap_eq_nil_iff]
  intro e he
  have := h e he
  cases e <;> simp_all [isRepoEvent]

theorem prsOf_nil_of_repo (l : List Event)
    (h : ∀ e ∈ l, isRepoEvent e = true) : prsOf l = [] := by
  rw [prsOf, List.filterMap_eq_nil_iff]
  intro e he
  have := h e he
  cases e <;> simp_all [isRepoEvent]

theorem cleanup_not_mem_of_repo (l : List Event)
    (h : ∀ e ∈ l, isRepoEvent e = true) : Event.cleanupTmp ∉ l := by
  intro hc
  have := h _ hc
  simp [isRepoEvent] at this

theorem branchNamesOf_nil_of_push (o : Oracle) (names : List String) :
    branchNamesOf (pushPhase o names).1 = [] := by
  rw [branchNamesOf, List.filterMap_eq_nil_iff]
  intro e he
  rcases mem_pushPhase_push o names e he with ⟨r, rfl⟩
  rfl

theorem commitsOf_nil_of_push (o : Oracle) (names : List String) :
    commitsOf (pushPhase o names).1 = [] := by
  rw [commitsOf, List.filterMap_eq_nil_iff]
  intro e he
  rcases mem_pushPhase_push o names e he with ⟨r, rfl⟩
  rfl

theorem issuesOf_nil_of_push (o : Oracle) (names : List String) :
    issuesOf (pushPhase o names).1 = [] := by
  rw [issuesOf, List.filterMap_eq_nil_iff]
  intro e he
  rcases mem_pushPhase_push o names e he with ⟨r, rfl⟩
  rfl

theorem prsOf_nil_of_push (o : Oracle) (names : List String) :
    prsOf (pushPhase o names).1 = [] := by
  rw [prsOf, List.filterMap_eq_nil_iff]
  intro e he
  rcases mem_pushPhase_push o names e he with ⟨r, rfl⟩
  rfl

theorem cleanup_not_mem_push (o : Oracle) (names : List String) :
    Event.cleanupTmp ∉ (pushPhase o names).1 := by
  intro hc
  rcases mem_pushPhase_push o names _ hc with ⟨r, hr⟩
  exact Event.noConfusion hr

theorem branchNamesOf_nil_of_publish (o : Oracle) (number original baseMsg : String)
    (conflicted targets : List String) :
    branchNamesOf (publishPhase o number original baseMsg conflicted targets) = [] := by
  rw [branchNamesOf, List.filterMap_eq_nil_iff]
  intro e he
  have := mem_publishPhase_publish o number original baseMsg conflicted targets e he
  cases e <;> simp_all [isPublishEvent]

theorem commitsOf_nil_of_publish (o : Oracle) (number original baseMsg : String)
    (conflicted targets : List String) :
    commitsOf (publishPhase o number original baseMsg conflicted targets) = [] := by
  rw [commitsOf, List.filterMap_eq_nil_iff]
  intro e he
  have := mem_publishPhase_publish o number original baseMsg conflicted targets e he
  cases e <;> simp_all [isPublishEvent]

theorem pushRefsOf_nil_of_publish (o : Oracle) (number original baseMsg : String)
    (conflicted targets : List String) :
    pushRefsOf (publishPhase o number original baseMsg conflicted targets) = [] := by
  rw [pushRefsOf, List.filterMap_eq_nil_iff]
  intro e he
  have := mem_publishPhase_publish o number original baseMsg conflicted targets e he
  cases e <;> simp_all [isPublishEvent]

theorem cleanup_not_mem_publish (o : Oracle) (number original baseMsg : String)
    (conflicted targets : List String) :
    Event.cleanupTmp ∉ publishPhase o number original baseMsg conflicted targets := by
  intro hc
  have := mem_publishPhase_publish o number original baseMsg conflicted targets _ hc
  simp [isPublishEvent] at this

/-! ## Phase characterization lemmas -/

theorem processTargets_nonFatal (o : Oracle) (number original baseMsg : String)
    (branches : List String) (h : ∀ t ∈ branches, nonFatalApply o t) :
    processTargets o number original baseMsg branches
      = (branches.flatMap (targetBlock o number original baseMsg),
         conflictedOf o branches, none) := by
  induction branches with
  | nil => simp [processTargets, conflictedOf]
  | cons t rest ih =>
    have hrest := ih fun x hx => h x (List.mem_cons_of_mem t hx)
    have ht := h t (List.mem_cons_self t rest)
    rcases happ : o.applyResult t with _ | msg
    · simp only [processTargets, happ, hrest, conflictedOf, List.filter_cons,
        Option.isSome_none, Bool.false_eq_true, if_false, List.flatMap_cons]
    · have hc : conflictsRegexTest msg = true := ht msg happ
      simp only [processTargets, happ, hc, if_true, hrest, conflictedOf,
        List.filter_cons, Option.isSome_some, if_true, List.flatMap_cons]

theorem processTargets_append (o : Oracle) (number original baseMsg : String)
    (pre rest : List String) (hpre : ∀ x ∈ pre, nonFatalApply o x) :
    processTargets o number original baseMsg (pre ++ rest)
      = (pre.flatMap (targetBlock o number original baseMsg)
           ++ (processTargets o number original baseMsg rest).1,
         conflictedOf o pre ++ (processTargets o number original baseMsg rest).2.1,
         (processTargets o number original baseMsg rest).2.2) := by
  induction pre with
  | nil => simp [conflictedOf]
  | cons t pr ih =>
    have hrest := ih fun x hx => hpre x (List.mem_cons_of_mem t hx)
    have ht := hpre t (List.mem_cons_self t pr)
    rcases happ : o.applyResult t with _ | msg
    · simp only [List.cons_append, processTargets, happ, List.append_eq, hrest,
        conflictedOf, List.filter_cons, Option.isSome_none, Bool.false_eq_true,
        if_false, List.flatMap_cons, List.append_assoc]
    · have hc : conflictsRegexTest msg = true := ht msg happ
      simp only [List.cons_append, processTargets, happ, hc, if_true,
        List.append_eq, hrest, conflictedOf, List.filter_cons,
        Option.isSome_some, List.flatMap_cons, List.append_assoc]

theorem pushPhase_ok (o : Oracle) (names : List String)
    (h : ∀ b ∈ names, o.pushOk (refspecOf b) = true) :
    pushPhase o names
      = (names.map fun b => Event.push (refspecOf b), none) := by
  induction names with
  | nil => simp [pushPhase]
  | cons b rest ih =>
    have hb := h b (List.mem_cons_self b rest)
    have hrest := ih fun x hx => h x (List.mem_cons_of_mem b hx)
    simp [pushPhase, hb, hrest]

theorem pushPhase_fail (o : Oracle) (pre post : List String) (b : String)
    (hpre : ∀ x ∈ pre, o.pushOk (refspecOf x) = true)
    (hb : o.pushOk (refspecOf b) = false) :
    pushPhase o (pre ++ b :: post)
      = ((pre ++ [b]).map fun x => Event.push (refspecOf x), some b) := by
  induction pre with
  | nil => simp [pushPhase, hb]
  | cons x pr ih =>
    have hx := hpre x (List.mem_cons_self x pr)
    have hrest := ih fun y hy => hpre y (List.mem_cons_of_mem x hy)
    simp [pushPhase, hx, hrest]

theorem issuesOf_publishPhase (o : Oracle) (number original baseMsg : String)
    (conflicted targets : List String) :
    issuesOf (publishPhase o number original baseMsg conflicted targets)
      = targets.map (issueParamsFor o number baseMsg conflicted) := by
  induction targets with
  | nil => simp [publishPhase, issuesOf]
  | cons t rest ih =>
    simp only [publishPhase, List.flatMap_cons, issuesOf, List.filterMap_append,
      List.filterMap_cons] at ih ⊢
    rw [ih]
    rfl

theorem prsOf_publishPhase (o : Oracle) (number original baseMsg : String)
    (conflicted targets : List String) :
    prsOf (publishPhase o number original baseMsg conflicted targets)
      = targets.map (prParamsFor o number original) := by
  induction targets with
  | nil => simp [publishPhase, prsOf]
  | cons t rest ih =>
    simp only [publishPhase, List.flatMap_cons, prsOf, List.filterMap_append,
      List.filterMap_cons] at ih ⊢
    rw [ih]
    rfl

theorem branchNamesOf_flatMap_targetBlock (o : Oracle)
    (number original baseMsg : String) (l : List String) :
    branchNamesOf (l.flatMap (targetBlock o number original baseMsg))
      = l.map fun t => backportBranchName number t original := by
  induction l with
  | nil => simp [branchNamesOf]
  | cons t rest ih =>
    simp only [List.flatMap_cons, branchNamesOf, List.filterMap_append,
      List.filterMap_cons, targetBlock, applySegment, commitSegment,
      List.cons_append, List.nil_append] at ih ⊢
    rw [ih]
    rfl

theorem commitsOf_flatMap_targetBlock (o : Oracle)
    (number original baseMsg : String) (l : List String) :
    commitsOf (l.flatMap (targetBlock o number original baseMsg))
      = l.map (commitRecFor o number baseMsg) := by
  induction l with
  | nil => simp [commitsOf]
  | cons t rest ih =>
    simp only [List.flatMap_cons, commitsOf, List.filterMap_append,
      List.filterMap_cons, targetBlock, applySegment, commitSegment,
      List.cons_append, List.nil_append] at ih ⊢
    rw [ih]
    rfl

theorem pushRefsOf_map_push {α : Type} (f : α → String) (l : List α) :
    pushRefsOf (l.map fun x => Event.push (f x)) = l.map f := by
  induction l with
  | nil => rfl
  | cons b rest ih =>
    simp only [List.map_cons, pushRefsOf, List.filterMap_cons] at ih ⊢
    rw [ih]

theorem issuesOf_map_push {α : Type} (f : α → String) (l : List α) :
    issuesOf (l.map fun x => Event.push (f x)) = [] := by
  induction l with
  | nil => rfl
  | cons b rest ih =>
    simp only [List.map_cons, issuesOf, List.filterMap_cons] at ih ⊢
    exact ih

theorem prsOf_map_push {α : Type} (f : α → String) (l : List α) :
    prsOf (l.map fun x => Event.push (f x)) = [] := by
  induction l with
  | nil => rfl
  | cons b rest ih =>
    simp only [List.map_cons, prsOf, List.filterMap_cons] at ih ⊢
    exact ih

theorem labelsFor_conflictedOf (o : Oracle) (branches : List String)
    (t : String) (ht : t ∈ branches) :
    labelsFor (conflictedOf o branches) t
      = if (o.applyResult t).isSome then ["backport", "has conflicts"]
        else ["backport"] := by
  have hce : (conflictedOf o branches).contains t
      = decide (t ∈ conflictedOf o branches) :=
    List.elem_eq_mem t (conflictedOf o branches)
  rw [labelsFor, hce]
  by_cases h : (o.applyResult t).isSome = true
  · have hmem : t ∈ conflictedOf o branches := List.mem_filter.mpr ⟨ht, h⟩
    rw [decide_eq_true hmem, if_pos rfl, if_pos h]
  · have hmem : t ∉ conflictedOf o branches := fun hc =>
      h (List.mem_filter.mp hc).2
    rw [decide_eq_false hmem, if_neg h]
    simp

theorem branchNamesOf_append (l1 l2 : List Event) :
    branchNamesOf (l1 ++ l2) = branchNamesOf l1 ++ branchNamesOf l2 :=
  List.filterMap_append l1 l2 _

theorem pushRefsOf_append (l1 l2 : List Event) :
    pushRefsOf (l1 ++ l2) = pushRefsOf l1 ++ pushRefsOf l2 :=
  List.filterMap_append l1 l2 _

theorem commitsOf_append (l1 l2 : List Event) :
    commitsOf (l1 ++ l2) = commitsOf l1 ++ commitsOf l2 :=
  List.filterMap_append l1 l2 _

theorem issuesOf_append (l1 l2 : List Event) :
    issuesOf (l1 ++ l2) = issuesOf l1 ++ issuesOf l2 :=
  List.filterMap_append l1 l2 _

theorem prsOf_append (l1 l2 : List Event) :
    prsOf (l1 ++ l2) = prsOf l1 ++ prsOf l2 :=
  List.filterMap_append l1 l2 _

/-! ## Master lemmas about whole runs -/

/-- The full trace of a successful run. -/
def successEvents (o : Oracle) (number : String) (branches : List String) :
    List Event :=
  initEvents
    ++ branches.flatMap
        (targetBlock o number o.info.headRef (baseCommitMessage o.commits))
    ++ (branches.map fun t =>
          Event.push (refspecOf (backportBranchName number t o.info.headRef)))
    ++ publishPhase o number o.info.headRef (baseCommitMessage o.commits)
        (conflictedOf o branches) branches
    ++ [Event.cleanupTmp, Event.send (sendMessage number branches)]

theorem runAfterMatch_success (o : Oracle) (number : String)
    (branches : List String)
    (hb : branches.contains o.info.baseRef = false)
    (hm : o.info.merged = true)
    (hnf : ∀ t ∈ branches, nonFatalApply o t)
    (hp : ∀ t ∈ branches,
      o.pushOk (refspecOf (backportBranchName number t o.info.headRef)) = true) :
    runAfterMatch number branches o
      = { outcome := Outcome.success (sendMessage number branches)
        , events := successEvents o number branches
        , conflicted := conflictedOf o branches } := by
  have hpt := processTargets_nonFatal o number o.info.headRef
    (baseCommitMessage o.commits) branches hnf
  have hpnames : ∀ b ∈ branches.map
      (fun t => backportBranchName number t o.info.headRef),
      o.pushOk (refspecOf b) = true := by
    intro b hbm
    rcases List.mem_map.mp hbm with ⟨t, htm, rfl⟩
    exact hp t htm
  have hpp := pushPhase_ok o _ hpnames
  simp only [runAfterMatch, hb, Bool.false_eq_true, if_false, hm,
    Bool.not_true, hpt, hpp, successEvents, List.map_map]
  rfl

theorem runBackport_events_decomp (url : String) (branches : List String)
    (o : Oracle) (capture : String × String)
    (hurl : prUrlMatch url = some capture)
    (hb : branches.contains o.info.baseRef = false)
    (hm : o.info.merged = true)
    (hnf : ∀ t ∈ branches, nonFatalApply o t) :
    ∃ tail,
      (runBackport url branches o).events
        = initEvents
          ++ branches.flatMap
              (targetBlock o capture.2 o.info.headRef (baseCommitMessage o.commits))
          ++ tail
      ∧ branchNamesOf tail = []
      ∧ commitsOf tail = []
      ∧ (runBackport url branches o).conflicted = conflictedOf o branches := by
  have hpt := processTargets_nonFatal o capture.2 o.info.headRef
    (baseCommitMessage o.commits) branches hnf
  simp only [runBackport, hurl, runAfterMatch, hb, Bool.false_eq_true, if_false,
    hm, Bool.not_true, hpt]
  cases hperr : (pushPhase o
      (branches.map fun t => backportBranchName capture.2 t o.info.headRef)).2 with
  | some b =>
    simp only [hperr]
    refine ⟨(pushPhase o
      (branches.map fun t => backportBranchName capture.2 t o.info.headRef)).1,
      ?_, ?_, ?_, trivial⟩
    · simp [List.append_assoc]
    · exact branchNamesOf_nil_of_push o _
    · exact commitsOf_nil_of_push o _
  | none =>
    simp only [hperr]
    refine ⟨(pushPhase o
        (branches.map fun t => backportBranchName capture.2 t o.info.headRef)).1
        ++ publishPhase o capture.2 o.info.headRef (baseCommitMessage o.commits)
            (conflictedOf o branches) branches
        ++ [Event.cleanupTmp, Event.send (sendMessage capture.2 branches)],
      ?_, ?_, ?_, trivial⟩
    · simp [List.append_assoc]
    · rw [branchNamesOf_append, branchNamesOf_append,
        branchNamesOf_nil_of_push o _, branchNamesOf_nil_of_publish]
      rfl
    · rw [commitsOf_append, commitsOf_append, commitsOf_nil_of_push o _,
        commitsOf_nil_of_publish]
      rfl

/-! ## Lemmas about the consolidated message -/

theorem commitBlocks_length (num : Nat) (l : List CommitData) :
    (commitBlocks num l).length = l.length := by
  induction l generalizing num with
  | nil => rfl
  | cons d rest ih => simp [commitBlocks, ih]

theorem commitBlocks_get (l : List CommitData) (num i : Nat)
    (h : i < l.length) (h2 : i < (commitBlocks num l).length) :
    (commitBlocks num l).get ⟨i, h2⟩
      = commitBlock (num + i + 1) (l.get ⟨i, h⟩) := by
  induction l generalizing num i with
  | nil => cases h
  | cons d rest ih =>
    cases i with
    | zero => rfl
    | succ j =>
      have hj : j < rest.length := Nat.lt_of_succ_lt_succ h
      have hj2 : j < (commitBlocks (num + 1) rest).length := by
        rw [commitBlocks_length]
        exact hj
      have hrec := ih (num + 1) j hj hj2
      have heq : num + 1 + j + 1 = num + (j + 1) + 1 := by omega
      rw [heq] at hrec
      exact hrec

/-! ## Claim theorems -/

/-- C6: for every non-empty ordered commit list, the consolidated message is
the blank-line join of a list of blocks with exactly one numbered block per
commit, in original commit order, where the block at position i carries the
1-based index i+1, the original message, the original sha, and the author
and committer name, email and date verbatim. -/
theorem consolidated_message_structure (commits : List CommitData)
    (hne : commits ≠ []) :
    ∃ blocks : List String,
      baseCommitMessage commits = String.intercalate "\n\n" blocks
      ∧ blocks.length = commits.length
      ∧ ∀ i (hi : i < commits.length) (hbl : i < blocks.length),
          blocks.get ⟨i, hbl⟩
            = String.intercalate "\n"
                [ "[Commit " ++ toString (i + 1) ++ "]"
                , (commits.get ⟨i, hi⟩).message ++ "\n"
                , "Original sha: " ++ (commits.get ⟨i, hi⟩).sha
                , "Authored by " ++ (commits.get ⟨i, hi⟩).author.name ++ " <"
                    ++ (commits.get ⟨i, hi⟩).author.email ++ "> on "
                    ++ (commits.get ⟨i, hi⟩).author.date
                , "Committed by " ++ (commits.get ⟨i, hi⟩).committer.name
                    ++ " <" ++ (commits.get ⟨i, hi⟩).committer.email
                    ++ "> on " ++ (commits.get ⟨i, hi⟩).committer.date ] := by
  refine ⟨commitBlocks 0 commits, rfl, commitBlocks_length 0 commits, ?_⟩
  intro i hi hbl
  rw [commitBlocks_get commits 0 i hi hbl]
  rw [show 0 + i + 1 = i + 1 by omega]
  rfl

/-- Witness for C6 at the one-commit scenario of the spec. -/
theorem consolidated_message_structure_witness :
    ∃ blocks : List String,
      baseCommitMessage [sampleCommit] = String.intercalate "\n\n" blocks
      ∧ blocks.length = [sampleCommit].length
      ∧ ∀ i (hi : i < [sampleCommit].length) (hbl : i < blocks.length),
          blocks.get ⟨i, hbl⟩
            = String.intercalate "\n"
                [ "[Commit " ++ toString (i + 1) ++ "]"
                , ([sampleCommit].get ⟨i, hi⟩).message ++ "\n"
                , "Original sha: " ++ ([sampleCommit].get ⟨i, hi⟩).sha
                , "Authored by " ++ ([sampleCommit].get ⟨i, hi⟩).author.name
                    ++ " <" ++ ([sampleCommit].get ⟨i, hi⟩).author.email
                    ++ "> on " ++ ([sampleCommit].get ⟨i, hi⟩).author.date
                , "Committed by " ++ ([sampleCommit].get ⟨i, hi⟩).committer.name
                    ++ " <" ++ ([sampleCommit].get ⟨i, hi⟩).committer.email
                    ++ "> on " ++ ([sampleCommit].get ⟨i, hi⟩).committer.date ] :=
  consolidated_message_structure [sampleCommit] (by decide)

/-- C1 as stated is refuted: for PR number 42, target release-1.0 and head
feature-x, the run creates exactly the branch
jasper/backport/42-release-1.0-feature-x, and no branch named
backport/42-release-1.0-feature-x is ever created. -/
theorem claimed_branch_name_refuted :
    branchNamesOf (runBackport sampleUrl ["release-1.0"] sampleOracle).events
        = ["jasper/backport/42-release-1.0-feature-x"]
      ∧ "backport/42-release-1.0-feature-x"
          ∉ branchNamesOf
              (runBackport sampleUrl ["release-1.0"] sampleOracle).events := by
  refine ⟨by decide, by decide⟩

/-- C1 amended: on a validated run with no fatal apply error, exactly one
derived branch is created per supplied target, in order, and its name is
jasper/backport/N-T-H where N is the PR number capture, T the target and H
the original head ref.  Determinism holds because runBackport is a pure
function of its inputs. -/
theorem derived_branch_names (url : String) (branches : List String)
    (o : Oracle) (capture : String × String)
    (hurl : prUrlMatch url = some capture)
    (hb : branches.contains o.info.baseRef = false)
    (hm : o.info.merged = true)
    (hnf : ∀ t ∈ branches, nonFatalApply o t) :
    branchNamesOf (runBackport url branches o).events
      = branches.map fun t =>
          "jasper/backport/" ++ capture.2 ++ "-" ++ t ++ "-" ++ o.info.headRef := by
  rcases runBackport_events_decomp url branches o capture hurl hb hm hnf with
    ⟨tail, he, hbn, _, _⟩
  rw [he, branchNamesOf_append, branchNamesOf_append, hbn,
    branchNamesOf_flatMap_targetBlock]
  simp [branchNamesOf, initEvents, backportBranchName]

/-- Witness for the amended C1. -/
theorem derived_branch_names_witness :
    branchNamesOf (runBackport sampleUrl ["release-2.0"] sampleOracle).events
      = ["release-2.0"].map fun t =>
          "jasper/backport/" ++ ("elastic/kibana", "42").2 ++ "-" ++ t ++ "-"
            ++ sampleOracle.info.headRef :=
  derived_branch_names sampleUrl ["release-2.0"] sampleOracle
    ("elastic/kibana", "42") (by decide) (by decide) rfl
    (fun t ht msg hmsg => by cases hmsg)

/-- C2: if a supplied target equals the base ref, or the PR is unmerged, the
run fails validation right after the two metadata fetches: the diff is never
fetched (count zero) and no branch creation, checkout, patch application,
staging, commit, push, issue or pull request ever happens. -/
theorem validation_gates_block_everything (url : String)
    (branches : List String) (o : Oracle) (capture : String × String)
    (hurl : prUrlMatch url = some capture)
    (h : branches.contains o.info.baseRef = true ∨ o.info.merged = false) :
    (∃ e, (runBackport url branches o).outcome = Outcome.handledError e)
    ∧ (runBackport url branches o).events = [Event.getInfo, Event.getCommits]
    ∧ (runBackport url branches o).events.count Event.diffFetch = 0
    ∧ branchNamesOf (runBackport url branches o).events = []
    ∧ (∀ t, Event.checkout t ∉ (runBackport url branches o).events)
    ∧ (∀ t, Event.applyPatch t ∉ (runBackport url branches o).events)
    ∧ (∀ t, Event.stageAll t ∉ (runBackport url branches o).events)
    ∧ commitsOf (runBackport url branches o).events = []
    ∧ pushRefsOf (runBackport url branches o).events = []
    ∧ issuesOf (runBackport url branches o).events = []
    ∧ prsOf (runBackport url branches o).events = [] := by
  by_cases hbc : branches.contains o.info.baseRef = true
  · have hrun : runBackport url branches o
        = { outcome := Outcome.handledError RunError.invalidTarget
          , events := [Event.getInfo, Event.getCommits], conflicted := [] } := by
      simp only [runBackport, hurl, runAfterMatch, hbc, if_true]
    rw [hrun]
    refine ⟨⟨RunError.invalidTarget, rfl⟩, rfl, by decide, rfl, ?_, ?_, ?_,
      rfl, rfl, rfl, rfl⟩
    all_goals intro t; simp
  · have hcf : branches.contains o.info.baseRef = false := by
      cases hres : branches.contains o.info.baseRef
      · rfl
      · exact absurd hres hbc
    have hmf : o.info.merged = false := by
      rcases h with h1 | h2
      · exact absurd h1 hbc
      · exact h2
    have hrun : runBackport url branches o
        = { outcome := Outcome.handledError RunError.notMerged
          , events := [Event.getInfo, Event.getCommits], conflicted := [] } := by
      simp only [runBackport, hurl, runAfterMatch, hcf,
        Bool.false_eq_true, if_false, hmf, Bool.not_false, if_true]
    rw [hrun]
    refine ⟨⟨RunError.notMerged, rfl⟩, rfl, by decide, rfl, ?_, ?_, ?_,
      rfl, rfl, rfl, rfl⟩
    all_goals intro t; simp

/-- Witness for C2: backporting into the base branch main performs only the
two metadata fetches. -/
theorem validation_gates_block_everything_witness :
    (runBackport sampleUrl ["main"] sampleOracle).events
      = [Event.getInfo, Event.getCommits] :=
  (validation_gates_block_everything sampleUrl ["main"] sampleOracle
    ("elastic/kibana", "42") (by decide) (Or.inl (by decide))).2.1

/-- C10 as stated is refuted: this URL does not have the literal form
https-github.com-owner-repo-pull-number (its host is githubxcom), yet the
handler does not throw, because the dot in PR_URL_REGEX is an unescaped
regex dot and matches the x. -/
theorem non_literal_url_accepted :
    exactPRUrl "https://githubxcom/elastic/kibana/pull/42" = false
    ∧ (runBackport "https://githubxcom/elastic/kibana/pull/42"
        ["release-1.0"] sampleOracle).outcome ≠ Outcome.syncThrow := by
  refine ⟨by decide, by decide⟩

/-- C10 amended: for every command URL that PR_URL_REGEX does not match
(the regex treats the dot of github.com as matching any single
non-line-terminator character), destructuring the null match throws
synchronously: no event is performed, so no collaborator call is made, and
the outcome is syncThrow, which the promise-chain catch handler never
receives (it is distinct from every handledError outcome). -/
theorem unmatched_url_sync_throw (url : String) (branches : List String)
    (o : Oracle) (h : prUrlMatch url = none) :
    runBackport url branches o
      = { outcome := Outcome.syncThrow, events := [], conflicted := [] } := by
  simp [runBackport, h]

/-- Witness for the amended C10. -/
theorem unmatched_url_sync_throw_witness :
    runBackport "https://gitlab.com/o/r/pull/1" ["x"] sampleOracle
      = { outcome := Outcome.syncThrow, events := [], conflicted := [] } :=
  unmatched_url_sync_throw "https://gitlab.com/o/r/pull/1" ["x"] sampleOracle
    (by decide)

/-- C3 as stated is refuted: on the fatal-apply exit path the temporary diff
file has been created but cleanupTmp is never invoked, so the file is not
released on that exit path. -/
theorem cleanup_skipped_on_fatal_exit :
    Event.tmpCreate
        ∈ (runBackport sampleUrl ["release-1.0"] fatalApplyOracle).events
    ∧ Event.cleanupTmp
        ∉ (runBackport sampleUrl ["release-1.0"] fatalApplyOracle).events
    ∧ (runBackport sampleUrl ["release-1.0"] fatalApplyOracle).outcome
        = Outcome.handledError
            (RunError.applyFailed "release-1.0" hardErrMsg) := by
  refine ⟨by decide, by decide, by decide⟩

/-- C3 amended: the temporary diff file is released exactly when the run
completes successfully.  On validation failure no temporary file was ever
created, and on a fatal error after the diff download the cleanup callback
is never invoked, so the file leaks, as the design notes of the spec record
for the observed behavior. -/
theorem cleanup_iff_success (url : String) (branches : List String)
    (o : Oracle) :
    (∃ m, (runBackport url branches o).outcome = Outcome.success m)
      ↔ Event.cleanupTmp ∈ (runBackport url branches o).events := by
  rcases hu : prUrlMatch url with _ | capture
  · simp [runBackport, hu]
  · by_cases hbc : branches.contains o.info.baseRef = true
    · have hrun : runBackport url branches o
          = { outcome := Outcome.handledError RunError.invalidTarget
            , events := [Event.getInfo, Event.getCommits]
            , conflicted := [] } := by
        simp only [runBackport, hu, runAfterMatch, hbc, if_true]
      rw [hrun]
      simp
    · have hcf : branches.contains o.info.baseRef = false := by
        cases hres : branches.contains o.info.baseRef
        · rfl
        · exact absurd hres hbc
      by_cases hm : o.info.merged = true
      · have hnc1 : Event.cleanupTmp ∉
            (processTargets o capture.2 o.info.headRef
              (baseCommitMessage o.commits) branches).1 :=
          cleanup_not_mem_of_repo _
            (mem_processTargets_repo o capture.2 o.info.headRef
              (baseCommitMessage o.commits) branches)
        simp only [runBackport, hu, runAfterMatch, hcf, Bool.false_eq_true,
          if_false, hm, Bool.not_true]
        rcases hfe : (processTargets o capture.2 o.info.headRef
            (baseCommitMessage o.commits) branches).2.2 with _ | fe
        · rcases hperr : (pushPhase o (branches.map fun t =>
              backportBranchName capture.2 t o.info.headRef)).2 with _ | b
          · simp only [hfe, hperr]
            constructor
            · intro _
              simp [List.mem_append]
            · intro _
              exact ⟨sendMessage capture.2 branches, rfl⟩
          · simp only [hfe, hperr]
            apply iff_of_false
            · rintro ⟨m, hmm⟩
              exact Outcome.noConfusion hmm
            · intro hc
              rcases List.mem_append.mp hc with hc1 | hc2
              · rcases List.mem_append.mp hc1 with hc3 | hc4
                · simp [initEvents] at hc3
                · exact hnc1 hc4
              · exact cleanup_not_mem_push o _ hc2
        · simp only [hfe]
          apply iff_of_false
          · rintro ⟨m, hmm⟩
            exact Outcome.noConfusion hmm
          · intro hc
            rcases List.mem_append.mp hc with hc1 | hc2
            · simp [initEvents] at hc1
            · exact hnc1 hc2
      · have hmf : o.info.merged = false := by
          cases hres : o.info.merged
          · rfl
          · exact absurd hres hm
        have hrun : runBackport url branches o
            = { outcome := Outcome.handledError RunError.notMerged
              , events := [Event.getInfo, Event.getCommits]
              , conflicted := [] } := by
          simp only [runBackport, hu, runAfterMatch, hcf,
            Bool.false_eq_true, if_false, hmf, Bool.not_false, if_true]
        rw [hrun]
        simp

/-- C4: if git apply fails on a target with a message CONFLICTS_REGEX
recognizes, the target is recorded as conflicted and processing continues to
stage, commit and (when later pushes succeed) push that branch; if the apply
failure message is not recognized, the failure is fatal: the run stops right
after that apply, no later target is processed, and no push, issue or pull
request happens. -/
theorem conflict_vs_fatal_apply (url : String)
    (branches pre post : List String) (t msg : String) (o : Oracle)
    (capture : String × String)
    (hurl : prUrlMatch url = some capture)
    (hb : branches.contains o.info.baseRef = false)
    (hm : o.info.merged = true)
    (hsplit : branches = pre ++ t :: post)
    (hpre : ∀ x ∈ pre, nonFatalApply o x)
    (happ : o.applyResult t = some msg) :
    (conflictsRegexTest msg = true →
      t ∈ (runBackport url branches o).conflicted
      ∧ Event.stageAll t ∈ (runBackport url branches o).events
      ∧ Event.commit (commitRecFor o capture.2 (baseCommitMessage o.commits) t)
          ∈ (runBackport url branches o).events
      ∧ ((∀ x ∈ post, nonFatalApply o x) →
         (∀ s, o.pushOk s = true) →
         Event.push (refspecOf (backportBranchName capture.2 t o.info.headRef))
           ∈ (runBackport url branches o).events))
    ∧ (conflictsRegexTest msg = false →
      (runBackport url branches o).outcome
          = Outcome.handledError (RunError.applyFailed t msg)
      ∧ (runBackport url branches o).events
          = initEvents
            ++ pre.flatMap (targetBlock o capture.2 o.info.headRef
                (baseCommitMessage o.commits))
            ++ applySegment o capture.2 o.info.headRef t
      ∧ pushRefsOf (runBackport url branches o).events = []
      ∧ issuesOf (runBackport url branches o).events = []
      ∧ prsOf (runBackport url branches o).events = []) := by
  subst hsplit
  have hPT := processTargets_append o capture.2 o.info.headRef
    (baseCommitMessage o.commits) pre (t :: post) hpre
  constructor
  · intro hc
    have hPTt : processTargets o capture.2 o.info.headRef
        (baseCommitMessage o.commits) (t :: post)
        = (targetBlock o capture.2 o.info.headRef (baseCommitMessage o.commits) t
            ++ (processTargets o capture.2 o.info.headRef
                (baseCommitMessage o.commits) post).1,
           t :: (processTargets o capture.2 o.info.headRef
                (baseCommitMessage o.commits) post).2.1,
           (processTargets o capture.2 o.info.headRef
                (baseCommitMessage o.commits) post).2.2) := by
      simp only [processTargets, happ, hc, if_true]
    have hcore : ∃ more,
        (runBackport url (pre ++ t :: post) o).events
          = initEvents ++ (processTargets o capture.2 o.info.headRef
              (baseCommitMessage o.commits) (pre ++ t :: post)).1 ++ more
        ∧ (runBackport url (pre ++ t :: post) o).conflicted
          = (processTargets o capture.2 o.info.headRef
              (baseCommitMessage o.commits) (pre ++ t :: post)).2.1 := by
      simp only [runBackport, hurl, runAfterMatch, hb, Bool.false_eq_true,
        if_false, hm, Bool.not_true]
      rcases hfe : (processTargets o capture.2 o.info.headRef
          (baseCommitMessage o.commits) (pre ++ t :: post)).2.2 with _ | fe
      · rcases hperr : (pushPhase o ((pre ++ t :: post).map fun x =>
            backportBranchName capture.2 x o.info.headRef)).2 with _ | bb
        · simp only [hfe, hperr]
          refine ⟨(pushPhase o ((pre ++ t :: post).map fun x =>
                backportBranchName capture.2 x o.info.headRef)).1
              ++ publishPhase o capture.2 o.info.headRef
                  (baseCommitMessage o.commits)
                  (processTargets o capture.2 o.info.headRef
                    (baseCommitMessage o.commits) (pre ++ t :: post)).2.1
                  (pre ++ t :: post)
              ++ [Event.cleanupTmp,
                  Event.send (sendMessage capture.2 (pre ++ t :: post))],
            by simp [List.append_assoc], trivial⟩
        · simp only [hfe, hperr]
          exact ⟨_, rfl, trivial⟩
      · simp only [hfe]
        exact ⟨[], by simp, trivial⟩
    rcases hcore with ⟨more, hev, hconf⟩
    refine ⟨?_, ?_, ?_, ?_⟩
    · rw [hconf, hPT]
      simp only [hPTt]
      exact List.mem_append.mpr (Or.inr (List.mem_cons_self t _))
    · rw [hev, hPT]
      simp only [hPTt]
      have : Event.stageAll t ∈ targetBlock o capture.2 o.info.headRef
          (baseCommitMessage o.commits) t := by
        simp [targetBlock, applySegment, commitSegment]
      simp only [List.mem_append]
      tauto
    · rw [hev, hPT]
      simp only [hPTt]
      have : Event.commit (commitRecFor o capture.2 (baseCommitMessage o.commits) t)
          ∈ targetBlock o capture.2 o.info.headRef (baseCommitMessage o.commits) t := by
        simp [targetBlock, applySegment, commitSegment]
      simp only [List.mem_append]
      tauto
    · intro hpost hpush
      have hnfall : ∀ x ∈ pre ++ t :: post, nonFatalApply o x := by
        intro x hx
        rcases List.mem_append.mp hx with h1 | h2
        · exact hpre x h1
        · rcases List.mem_cons.mp h2 with rfl | h3
          · intro m hmm
            rw [happ] at hmm
            cases hmm
            exact hc
          · exact hpost x h3
      have hpall : ∀ x ∈ pre ++ t :: post,
          o.pushOk (refspecOf (backportBranchName capture.2 x o.info.headRef))
            = true := fun x _ => hpush _
      have hs := runAfterMatch_success o capture.2 (pre ++ t :: post) hb hm
        hnfall hpall
      have hrw : runBackport url (pre ++ t :: post) o
          = { outcome := Outcome.success (sendMessage capture.2 (pre ++ t :: post))
            , events := successEvents o capture.2 (pre ++ t :: post)
            , conflicted := conflictedOf o (pre ++ t :: post) } := by
        simp only [runBackport, hurl]
        exact hs
      rw [hrw]
      simp only [successEvents, List.mem_append]
      have : Event.push (refspecOf (backportBranchName capture.2 t o.info.headRef))
          ∈ (pre ++ t :: post).map fun x =>
              Event.push (refspecOf (backportBranchName capture.2 x o.info.headRef)) :=
        List.mem_map.mpr ⟨t, by simp, rfl⟩
      tauto
  · intro hc
    have hPTt : processTargets o capture.2 o.info.headRef
        (baseCommitMessage o.commits) (t :: post)
        = (applySegment o capture.2 o.info.headRef t, [], some (t, msg)) := by
      simp only [processTargets, happ, hc, Bool.false_eq_true, if_false]
    have hfe : (processTargets o capture.2 o.info.headRef
        (baseCommitMessage o.commits) (pre ++ t :: post)).2.2 = some (t, msg) := by
      rw [hPT, hPTt]
    have hev1 : (processTargets o capture.2 o.info.headRef
        (baseCommitMessage o.commits) (pre ++ t :: post)).1
        = pre.flatMap (targetBlock o capture.2 o.info.headRef
            (baseCommitMessage o.commits))
          ++ applySegment o capture.2 o.info.headRef t := by
      rw [hPT, hPTt]
    have hrun : runBackport url (pre ++ t :: post) o
        = { outcome := Outcome.handledError (RunError.applyFailed t msg)
          , events := initEvents ++ (processTargets o capture.2 o.info.headRef
              (baseCommitMessage o.commits) (pre ++ t :: post)).1
          , conflicted := (processTargets o capture.2 o.info.headRef
              (baseCommitMessage o.commits) (pre ++ t :: post)).2.1 } := by
      simp only [runBackport, hurl, runAfterMatch, hb, Bool.false_eq_true,
        if_false, hm, Bool.not_true, hfe]
    have hrepo : ∀ e ∈ initEvents ++ (processTargets o capture.2 o.info.headRef
        (baseCommitMessage o.commits) (pre ++ t :: post)).1,
        e ∈ initEvents ∨ isRepoEvent e = true := by
      intro e he
      rcases List.mem_append.mp he with h1 | h2
      · exact Or.inl h1
      · exact Or.inr (mem_processTargets_repo o capture.2 o.info.headRef
          (baseCommitMessage o.commits) (pre ++ t :: post) e h2)
    refine ⟨by rw [hrun], ?_, ?_, ?_, ?_⟩
    · rw [hrun]
      simp only [hev1, List.append_assoc]
    · rw [hrun, pushRefsOf_append]
      rw [pushRefsOf_nil_of_repo _ (mem_processTargets_repo o capture.2
        o.info.headRef (baseCommitMessage o.commits) (pre ++ t :: post))]
      rfl
    · rw [hrun, issuesOf_append]
      rw [issuesOf_nil_of_repo _ (mem_processTargets_repo o capture.2
        o.info.headRef (baseCommitMessage o.commits) (pre ++ t :: post))]
      rfl
    · rw [hrun, prsOf_append]
      rw [prsOf_nil_of_repo _ (mem_processTargets_repo o capture.2
        o.info.headRef (baseCommitMessage o.commits) (pre ++ t :: post))]
      rfl

/-- Witness for C4: a recognized conflict on release-1.0 records the target
and the run continues; an unrecognized apply failure aborts the run with a
fatal error. -/
theorem conflict_vs_fatal_apply_witness :
    "release-1.0" ∈ (runBackport sampleUrl ["release-1.0"] conflictOracle).conflicted
    ∧ (runBackport sampleUrl ["release-1.0"] fatalApplyOracle).outcome
        = Outcome.handledError (RunError.applyFailed "release-1.0" hardErrMsg) := by
  constructor
  · exact ((conflict_vs_fatal_apply sampleUrl ["release-1.0"] [] []
      "release-1.0" conflictMsg conflictOracle ("elastic/kibana", "42")
      (by decide) (by decide) rfl rfl
      (fun x hx => absurd hx (List.not_mem_nil x)) (by decide)).1 (by decide)).1
  · exact ((conflict_vs_fatal_apply sampleUrl ["release-1.0"] [] []
      "release-1.0" hardErrMsg fatalApplyOracle ("elastic/kibana", "42")
      (by decide) (by decide) rfl rfl
      (fun x hx => absurd hx (List.not_mem_nil x)) rfl).2 (by decide)).1

/-- C5: working-tree changes are staged unconditionally for every processed
target, conflicted or clean, and each target also reaches the commit step;
on a fully successful run the tracking issues are exactly one per target, in
order, and a target's issue carries the label has conflicts exactly when
that target's patch application reported conflicts — clean targets never
carry it. -/
theorem unconditional_staging_and_conflict_label (url : String)
    (branches : List String) (o : Oracle) (capture : String × String)
    (hurl : prUrlMatch url = some capture)
    (hb : branches.contains o.info.baseRef = false)
    (hm : o.info.merged = true)
    (hnf : ∀ t ∈ branches, nonFatalApply o t) :
    (∀ t ∈ branches,
      Event.stageAll t ∈ (runBackport url branches o).events
      ∧ Event.commit (commitRecFor o capture.2 (baseCommitMessage o.commits) t)
          ∈ (runBackport url branches o).events)
    ∧ ((∀ t ∈ branches,
        o.pushOk (refspecOf (backportBranchName capture.2 t o.info.headRef))
          = true) →
      issuesOf (runBackport url branches o).events
        = branches.map (fun t =>
            { title := "[backport] PR #" ++ capture.2 ++ " to " ++ t
            , body := "Backport PR #" ++ capture.2 ++ " to " ++ t ++ "\n\n"
                ++ baseCommitMessage o.commits
            , assignee := o.info.mergedByLogin
            , labels := if (o.applyResult t).isSome then
                ["backport", "has conflicts"] else ["backport"] })
      ∧ ∀ t ∈ branches,
          ("has conflicts" ∈ labelsFor (conflictedOf o branches) t
            ↔ (o.applyResult t).isSome = true)) := by
  constructor
  · intro t ht
    rcases runBackport_events_decomp url branches o capture hurl hb hm hnf with
      ⟨tail, he, _, _, _⟩
    have hstage : Event.stageAll t ∈ branches.flatMap
        (targetBlock o capture.2 o.info.headRef (baseCommitMessage o.commits)) := by
      rw [List.mem_flatMap]
      exact ⟨t, ht, by simp [targetBlock, applySegment, commitSegment]⟩
    have hcommit : Event.commit
        (commitRecFor o capture.2 (baseCommitMessage o.commits) t)
        ∈ branches.flatMap
          (targetBlock o capture.2 o.info.headRef (baseCommitMessage o.commits)) := by
      rw [List.mem_flatMap]
      exact ⟨t, ht, by simp [targetBlock, applySegment, commitSegment]⟩
    rw [he]
    constructor
    · simp only [List.mem_append]
      tauto
    · simp only [List.mem_append]
      tauto
  · intro hp
    have hrw : runBackport url branches o
        = { outcome := Outcome.success (sendMessage capture.2 branches)
          , events := successEvents o capture.2 branches
          , conflicted := conflictedOf o branches } := by
      simp only [runBackport, hurl]
      exact runAfterMatch_success o capture.2 branches hb hm hnf hp
    constructor
    · rw [hrw]
      simp only [successEvents]
      rw [issuesOf_append, issuesOf_append, issuesOf_append, issuesOf_append]
      rw [issuesOf_nil_of_repo _ (mem_flatMap_targetBlock_repo o capture.2
        o.info.headRef (baseCommitMessage o.commits) branches)]
      rw [issuesOf_map_push]
      rw [issuesOf_publishPhase]
      have hinit : issuesOf initEvents = [] := rfl
      have hlast : issuesOf [Event.cleanupTmp,
          Event.send (sendMessage capture.2 branches)] = [] := rfl
      rw [hinit, hlast]
      simp only [List.nil_append, List.append_nil]
      apply List.map_congr_left
      intro t ht
      rw [issueParamsFor, labelsFor_conflictedOf o branches t ht]
    · intro t ht
      rw [labelsFor_conflictedOf o branches t ht]
      by_cases h : (o.applyResult t).isSome = true
      · rw [if_pos h]
        constructor
        · intro _
          exact h
        · intro _
          decide
      · rw [if_neg h]
        constructor
        · intro hmem
          exact absurd hmem (by decide)
        · intro hh
          exact absurd hh h

/-- Witness for C5 on a run where release-1.0 conflicts and release-2.0 is
clean: both targets are staged, and only the first issue carries the
has-conflicts label. -/
theorem unconditional_staging_and_conflict_label_witness :
    (Event.stageAll "release-1.0"
        ∈ (runBackport sampleUrl ["release-1.0", "release-2.0"]
            conflictOracle).events
      ∧ Event.stageAll "release-2.0"
        ∈ (runBackport sampleUrl ["release-1.0", "release-2.0"]
            conflictOracle).events)
    ∧ issuesOf (runBackport sampleUrl ["release-1.0", "release-2.0"]
          conflictOracle).events
        = [{ title := "[backport] PR #42 to release-1.0"
           , body := "Backport PR #42 to release-1.0\n\n"
               ++ baseCommitMessage [sampleCommit]
           , assignee := "alice"
           , labels := ["backport", "has conflicts"] },
           { title := "[backport] PR #42 to release-2.0"
           , body := "Backport PR #42 to release-2.0\n\n"
               ++ baseCommitMessage [sampleCommit]
           , assignee := "alice"
           , labels := ["backport"] }] := by
  have hnf : ∀ t ∈ ["release-1.0", "release-2.0"],
      nonFatalApply conflictOracle t := by
    intro t ht msg hmsg
    rcases List.mem_cons.mp ht with rfl | ht2
    · have h1 : conflictOracle.applyResult "release-1.0" = some conflictMsg := by
        decide
      rw [h1] at hmsg
      cases hmsg
      decide
    · rcases List.mem_cons.mp ht2 with rfl | ht3
      · have h2 : conflictOracle.applyResult "release-2.0" = none := by decide
        rw [h2] at hmsg
        cases hmsg
      · cases ht3
  have h := unconditional_staging_and_conflict_label sampleUrl
    ["release-1.0", "release-2.0"] conflictOracle ("elastic/kibana", "42")
    (by decide) (by decide) rfl hnf
  refine ⟨⟨(h.1 "release-1.0" (by decide)).1, (h.1 "release-2.0" (by decide)).1⟩, ?_⟩
  have h2 := (h.2 (fun t _ => rfl)).1
  rw [h2]
  decide

/-- C7: every processed target gets a commit created on its new branch via
HEAD, whose tree is the one written from the staged index, whose single
parent is the tip commit the branch was created at (the branch head at
commit time), whose message is Backport PR #number to target followed by a
blank line and the consolidated message, and whose author and committer are
the same fixed bot signature. -/
theorem backport_commit_shape (url : String) (branches : List String)
    (o : Oracle) (capture : String × String)
    (hurl : prUrlMatch url = some capture)
    (hb : branches.contains o.info.baseRef = false)
    (hm : o.info.merged = true)
    (hnf : ∀ t ∈ branches, nonFatalApply o t)
    (t : String) (ht : t ∈ branches) :
    Event.commit
      { refName := "HEAD"
      , author := o.signature
      , committer := o.signature
      , message := "Backport PR #" ++ capture.2 ++ " to " ++ t ++ "\n\n"
          ++ baseCommitMessage o.commits
      , tree := o.treeOf t
      , parents := [o.originTip t] }
      ∈ (runBackport url branches o).events := by
  rcases runBackport_events_decomp url branches o capture hurl hb hm hnf with
    ⟨tail, he, _, _, _⟩
  rw [he]
  have hcommit : Event.commit
      { refName := "HEAD"
      , author := o.signature
      , committer := o.signature
      , message := "Backport PR #" ++ capture.2 ++ " to " ++ t ++ "\n\n"
          ++ baseCommitMessage o.commits
      , tree := o.treeOf t
      , parents := [o.originTip t] }
      ∈ branches.flatMap
        (targetBlock o capture.2 o.info.headRef (baseCommitMessage o.commits)) := by
    rw [List.mem_flatMap]
    refine ⟨t, ht, ?_⟩
    show Event.commit (commitRecFor o capture.2 (baseCommitMessage o.commits) t)
      ∈ targetBlock o capture.2 o.info.headRef (baseCommitMessage o.commits) t
    simp [targetBlock, applySegment, commitSegment]
  simp only [List.mem_append]
  tauto

/-- Witness for C7. -/
theorem backport_commit_shape_witness :
    Event.commit
      { refName := "HEAD"
      , author := sampleOracle.signature
      , committer := sampleOracle.signature
      , message := "Backport PR #" ++ ("elastic/kibana", "42").2 ++ " to "
          ++ "release-1.0" ++ "\n\n" ++ baseCommitMessage sampleOracle.commits
      , tree := sampleOracle.treeOf "release-1.0"
      , parents := [sampleOracle.originTip "release-1.0"] }
      ∈ (runBackport sampleUrl ["release-1.0"] sampleOracle).events :=
  backport_commit_shape sampleUrl ["release-1.0"] sampleOracle
    ("elastic/kibana", "42") (by decide) (by decide) rfl
    (fun t ht msg hmsg => by cases hmsg) "release-1.0" (by decide)

/-- C8: the trace splits into a push-free part that already contains one
commit per target, followed by a commit-free part holding every push, so no
push starts before all targets are committed; when every push succeeds the
pushed refspecs are exactly one per target in target-list order (the chain
is sequential by construction, mirroring the promise reduce); and a failed
push ends the run with a pushFailed error, emits no further push, and no
issue or pull request is ever created. -/
theorem pushes_after_commits_sequential_abort (url : String)
    (branches : List String) (o : Oracle) (capture : String × String)
    (hurl : prUrlMatch url = some capture)
    (hb : branches.contains o.info.baseRef = false)
    (hm : o.info.merged = true)
    (hnf : ∀ t ∈ branches, nonFatalApply o t) :
    (∃ l1 l2, (runBackport url branches o).events = l1 ++ l2
      ∧ pushRefsOf l1 = []
      ∧ (commitsOf l1).length = branches.length
      ∧ commitsOf l2 = []
      ∧ pushRefsOf l2 = pushRefsOf (runBackport url branches o).events)
    ∧ ((∀ t ∈ branches,
        o.pushOk (refspecOf (backportBranchName capture.2 t o.info.headRef))
          = true) →
      pushRefsOf (runBackport url branches o).events
        = branches.map (fun t =>
            refspecOf (backportBranchName capture.2 t o.info.headRef)))
    ∧ ∀ pre b post, branches = pre ++ b :: post →
      (∀ x ∈ pre,
        o.pushOk (refspecOf (backportBranchName capture.2 x o.info.headRef))
          = true) →
      o.pushOk (refspecOf (backportBranchName capture.2 b o.info.headRef))
          = false →
      (runBackport url branches o).outcome
          = Outcome.handledError (RunError.pushFailed
              (backportBranchName capture.2 b o.info.headRef))
      ∧ pushRefsOf (runBackport url branches o).events
          = (pre ++ [b]).map (fun t =>
              refspecOf (backportBranchName capture.2 t o.info.headRef))
      ∧ issuesOf (runBackport url branches o).events = []
      ∧ prsOf (runBackport url branches o).events = [] := by
  have hrepoFlat := mem_flatMap_targetBlock_repo o capture.2 o.info.headRef
    (baseCommitMessage o.commits) branches
  refine ⟨?_, ?_, ?_⟩
  · rcases runBackport_events_decomp url branches o capture hurl hb hm hnf with
      ⟨tail, he, _, hcm, _⟩
    refine ⟨initEvents ++ branches.flatMap (targetBlock o capture.2
        o.info.headRef (baseCommitMessage o.commits)), tail, ?_, ?_, ?_, hcm, ?_⟩
    · rw [he, List.append_assoc]
    · rw [pushRefsOf_append, pushRefsOf_nil_of_repo _ hrepoFlat]
      rfl
    · rw [commitsOf_append, commitsOf_flatMap_targetBlock]
      have hinit : commitsOf initEvents = [] := rfl
      rw [hinit, List.nil_append, List.length_map]
    · rw [he, List.append_assoc, pushRefsOf_append]
      rw [pushRefsOf_append, pushRefsOf_nil_of_repo _ hrepoFlat]
      rfl
  · intro hp
    have hrw : runBackport url branches o
        = { outcome := Outcome.success (sendMessage capture.2 branches)
          , events := successEvents o capture.2 branches
          , conflicted := conflictedOf o branches } := by
      simp only [runBackport, hurl]
      exact runAfterMatch_success o capture.2 branches hb hm hnf hp
    rw [hrw]
    simp only [successEvents]
    rw [pushRefsOf_append, pushRefsOf_append, pushRefsOf_append,
      pushRefsOf_append, pushRefsOf_nil_of_repo _ hrepoFlat,
      pushRefsOf_map_push, pushRefsOf_nil_of_publish]
    have hinit : pushRefsOf initEvents = [] := rfl
    have hlast : pushRefsOf [Event.cleanupTmp,
        Event.send (sendMessage capture.2 branches)] = [] := rfl
    rw [hinit, hlast]
    simp
  · intro pre b post hsplit hpreok hbfail
    subst hsplit
    have hpt := processTargets_nonFatal o capture.2 o.info.headRef
      (baseCommitMessage o.commits) (pre ++ b :: post) hnf
    have hpreok2 : ∀ x ∈ pre.map
        (fun t => backportBranchName capture.2 t o.info.headRef),
        o.pushOk (refspecOf x) = true := by
      intro x hx
      rcases List.mem_map.mp hx with ⟨y, hy, rfl⟩
      exact hpreok y hy
    have hpf := pushPhase_fail o
      (pre.map fun t => backportBranchName capture.2 t o.info.headRef)
      (post.map fun t => backportBranchName capture.2 t o.info.headRef)
      (backportBranchName capture.2 b o.info.headRef) hpreok2 hbfail
    have hrun : runBackport url (pre ++ b :: post) o
        = { outcome := Outcome.handledError (RunError.pushFailed
              (backportBranchName capture.2 b o.info.headRef))
          , events := initEvents
              ++ (pre ++ b :: post).flatMap (targetBlock o capture.2
                  o.info.headRef (baseCommitMessage o.commits))
              ++ (((pre.map fun t => backportBranchName capture.2 t o.info.headRef)
                    ++ [backportBranchName capture.2 b o.info.headRef]).map
                  fun x => Event.push (refspecOf x))
          , conflicted := conflictedOf o (pre ++ b :: post) } := by
      simp only [runBackport, hurl, runAfterMatch, hb, Bool.false_eq_true,
        if_false, hm, Bool.not_true, hpt, List.map_append, List.map_cons, hpf]
    rw [hrun]
    have hrepoFlat2 := mem_flatMap_targetBlock_repo o capture.2 o.info.headRef
      (baseCommitMessage o.commits) (pre ++ b :: post)
    refine ⟨rfl, ?_, ?_, ?_⟩
    · rw [pushRefsOf_append, pushRefsOf_append,
        pushRefsOf_nil_of_repo _ hrepoFlat2, pushRefsOf_map_push]
      have hinit : pushRefsOf initEvents = [] := rfl
      rw [hinit]
      simp [List.map_append, List.map_map, Function.comp]
    · rw [issuesOf_append, issuesOf_append,
        issuesOf_nil_of_repo _ hrepoFlat2, issuesOf_map_push]
      rfl
    · rw [prsOf_append, prsOf_append,
        prsOf_nil_of_repo _ hrepoFlat2, prsOf_map_push]
      rfl

/-- Witness for C8: with every push succeeding exactly the one refspec of
the single target is pushed; with pushes failing, the run aborts with
pushFailed for the first derived branch. -/
theorem pushes_after_commits_sequential_abort_witness :
    pushRefsOf (runBackport sampleUrl ["release-1.0"] sampleOracle).events
      = ["release-1.0"].map (fun t => refspecOf (backportBranchName
          ("elastic/kibana", "42").2 t sampleOracle.info.headRef))
    ∧ (runBackport sampleUrl ["release-1.0"] pushFailOracle).outcome
      = Outcome.handledError (RunError.pushFailed (backportBranchName
          ("elastic/kibana", "42").2 "release-1.0"
          pushFailOracle.info.headRef)) := by
  constructor
  · exact (pushes_after_commits_sequential_abort sampleUrl ["release-1.0"]
      sampleOracle ("elastic/kibana", "42") (by decide) (by decide) rfl
      (fun t ht msg hmsg => by cases hmsg)).2.1 (fun t _ => rfl)
  · exact ((pushes_after_commits_sequential_abort sampleUrl ["release-1.0"]
      pushFailOracle ("elastic/kibana", "42") (by decide) (by decide) rfl
      (fun t ht msg hmsg => by cases hmsg)).2.2 [] "release-1.0" [] rfl
      (fun x hx => absurd hx (List.not_mem_nil x)) rfl).1

/-- C9: on a fully successful run the trace splits into a part holding all
the pushes (one per target, in order) with no issue or pull request, and a
later push-free part in which, per target in order, a tracking issue is
created — assigned to the login of the user who merged the PR, labeled
backport plus has conflicts exactly when that target conflicted — and a
pull request is created whose head is that target's derived branch, whose
base is the target branch and which references the number of the issue just
created for that target. -/
theorem publish_after_all_pushes (url : String) (branches : List String)
    (o : Oracle) (capture : String × String)
    (hurl : prUrlMatch url = some capture)
    (hb : branches.contains o.info.baseRef = false)
    (hm : o.info.merged = true)
    (hnf : ∀ t ∈ branches, nonFatalApply o t)
    (hp : ∀ t ∈ branches,
      o.pushOk (refspecOf (backportBranchName capture.2 t o.info.headRef))
        = true) :
    ∃ l1 l2,
      (runBackport url branches o).events = l1 ++ l2
      ∧ issuesOf l1 = []
      ∧ prsOf l1 = []
      ∧ pushRefsOf l1 = branches.map (fun t =>
          refspecOf (backportBranchName capture.2 t o.info.headRef))
      ∧ pushRefsOf l2 = []
      ∧ issuesOf l2 = branches.map (fun t =>
          { title := "[backport] PR #" ++ capture.2 ++ " to " ++ t
          , body := "Backport PR #" ++ capture.2 ++ " to " ++ t ++ "\n\n"
              ++ baseCommitMessage o.commits
          , assignee := o.info.mergedByLogin
          , labels := if (o.applyResult t).isSome then
              ["backport", "has conflicts"] else ["backport"] })
      ∧ prsOf l2 = branches.map (fun t =>
          { issue := o.issueNumber t
          , head := backportBranchName capture.2 t o.info.headRef
          , base := t }) := by
  have hrepoFlat := mem_flatMap_targetBlock_repo o capture.2 o.info.headRef
    (baseCommitMessage o.commits) branches
  have hrw : runBackport url branches o
      = { outcome := Outcome.success (sendMessage capture.2 branches)
        , events := successEvents o capture.2 branches
        , conflicted := conflictedOf o branches } := by
    simp only [runBackport, hurl]
    exact runAfterMatch_success o capture.2 branches hb hm hnf hp
  refine ⟨initEvents
      ++ branches.flatMap (targetBlock o capture.2 o.info.headRef
          (baseCommitMessage o.commits))
      ++ (branches.map fun t =>
          Event.push (refspecOf (backportBranchName capture.2 t o.info.headRef))),
    publishPhase o capture.2 o.info.headRef (baseCommitMessage o.commits)
        (conflictedOf o branches) branches
      ++ [Event.cleanupTmp, Event.send (sendMessage capture.2 branches)],
    ?_, ?_, ?_, ?_, ?_, ?_, ?_⟩
  · rw [hrw]
    simp only [successEvents]
    simp [List.append_assoc]
  · rw [issuesOf_append, issuesOf_append,
      issuesOf_nil_of_repo _ hrepoFlat, issuesOf_map_push]
    rfl
  · rw [prsOf_append, prsOf_append,
      prsOf_nil_of_repo _ hrepoFlat, prsOf_map_push]
    rfl
  · rw [pushRefsOf_append, pushRefsOf_append,
      pushRefsOf_nil_of_repo _ hrepoFlat, pushRefsOf_map_push]
    rfl
  · rw [pushRefsOf_append, pushRefsOf_nil_of_publish]
    rfl
  · rw [issuesOf_append, issuesOf_publishPhase]
    have hlast : issuesOf [Event.cleanupTmp,
        Event.send (sendMessage capture.2 branches)] = [] := rfl
    rw [hlast, List.append_nil]
    apply List.map_congr_left
    intro t ht
    rw [issueParamsFor, labelsFor_conflictedOf o branches t ht]
  · rw [prsOf_append, prsOf_publishPhase]
    have hlast : prsOf [Event.cleanupTmp,
        Event.send (sendMessage capture.2 branches)] = [] := rfl
    rw [hlast, List.append_nil]
    rfl

/-- Witness for C9 on the one-target scenario. -/
theorem publish_after_all_pushes_witness :
    ∃ l1 l2,
      (runBackport sampleUrl ["release-1.0"] sampleOracle).events = l1 ++ l2
      ∧ issuesOf l1 = []
      ∧ prsOf l1 = []
      ∧ pushRefsOf l1 = ["release-1.0"].map (fun t =>
          refspecOf (backportBranchName ("elastic/kibana", "42").2 t
            sampleOracle.info.headRef))
      ∧ pushRefsOf l2 = []
      ∧ issuesOf l2 = ["release-1.0"].map (fun t =>
          { title := "[backport] PR #" ++ ("elastic/kibana", "42").2 ++ " to " ++ t
          , body := "Backport PR #" ++ ("elastic/kibana", "42").2 ++ " to " ++ t
              ++ "\n\n" ++ baseCommitMessage sampleOracle.commits
          , assignee := sampleOracle.info.mergedByLogin
          , labels := if (sampleOracle.applyResult t).isSome then
              ["backport", "has conflicts"] else ["backport"] })
      ∧ prsOf l2 = ["release-1.0"].map (fun t =>
          { issue := sampleOracle.issueNumber t
          , head := backportBranchName ("elastic/kibana", "42").2 t
              sampleOracle.info.headRef
          , base := t }) :=
  publish_after_all_pushes sampleUrl ["release-1.0"] sampleOracle
    ("elastic/kibana", "42") (by decide) (by decide) rfl
    (fun t ht msg hmsg => by cases hmsg) (fun t _ => rfl)

end Jasper
